import Mathlib

/-!
Shallow embedding of the budget-tracker application logic from
`src/src/App.jsx` (the multi-currency version of the component).

JavaScript numbers are modelled as exact rationals (`ℚ`); all the
arithmetic the claims mention (identity returns, sums, one division and
one multiplication) is then exact, so the spec's "within floating-point
tolerance" round trip becomes an exact equality.  A JavaScript object
used as a rate table is modelled as an association list
`List (String × ℚ)`; `Object.keys(o).length === 0` becomes emptiness of
the list and `o[k]` becomes the first binding for `k`.  JavaScript
truthiness of a looked-up number (`!exchangeRates[c]`) is `false`
exactly when the key is absent or its value is `0`.  React state updates
(`setEntries`, `setEditingId`, `setFormValues`) are modelled by explicit
state passing on an `AppState` record; `Date.now()` and
`new Date().toISOString()` are passed in as the parameters `newId` and
`newDate` of `handleSubmit`.
-/

namespace BudgetTracker

/-- One budget entry (section 3 of the spec; the object literal built in
`handleSubmit`).  `currency` is optional because the summary code reads
it as `entry.currency || currency`, tolerating entries without it. -/
structure Entry where
  id : Nat
  type : String
  label : String
  amount : ℚ
  category : String
  currency : Option String
  date : String
deriving DecidableEq, Repr

/-- The staged form fields of the Form Controller (`formValues` state).
`amount` is the raw text of the numeric input, parsed on submit. -/
structure FormValues where
  type : String
  label : String
  amount : String
  category : String
  entryCurrency : String
deriving DecidableEq, Repr

/-- The slice of component state that `handleSubmit`, `handleCancelEdit`
and `handleDeleteEntry` read and write. -/
structure AppState where
  entries : List Entry
  editingId : Option Nat
  formValues : FormValues
  currency : String
deriving DecidableEq, Repr

/-- The summary record `{ totalIncome, totalExpenses, balance }` derived
in the `summary` memo (App.jsx lines 269–289). -/
structure Summary where
  totalIncome : ℚ
  totalExpenses : ℚ
  balance : ℚ
deriving DecidableEq, Repr

/-- One binding lookup on the association list modelling the
`exchangeRates` object: `exchangeRates[c]`. -/
def lookupRate (exchangeRates : List (String × ℚ)) (c : String) : Option ℚ :=
  (exchangeRates.find? (fun p => p.1 == c)).map (fun p => p.2)

/-- JavaScript truthiness of `exchangeRates[c]`: `undefined` (absent
key) and `0` are falsy, every other rational is truthy. -/
def isTruthyRate : Option ℚ → Bool
  | none => false
  | some r => r != 0

/-- Embedding of `convertCurrency` (App.jsx lines 217–242): convert
`amount` from `fromCurrency` to `toCurrency` by pivoting through the
base currency USD, returning `amount` unchanged when source equals
target, when the rate table is empty, or when either side's rate is
falsy (absent or zero) and that side is not USD. -/
def convertCurrency (exchangeRates : List (String × ℚ)) (amount : ℚ)
    (fromCurrency toCurrency : String) : ℚ :=
  if fromCurrency = toCurrency then amount
  else if exchangeRates.length = 0 then amount
  else if isTruthyRate (lookupRate exchangeRates fromCurrency) = false ∧ fromCurrency ≠ "USD" then amount
  else if isTruthyRate (lookupRate exchangeRates toCurrency) = false ∧ toCurrency ≠ "USD" then amount
  else
    let amountInUSD :=
      if fromCurrency = "USD" then amount
      else amount / ((lookupRate exchangeRates fromCurrency).getD 0)
    if toCurrency = "USD" then amountInUSD
    else amountInUSD * ((lookupRate exchangeRates toCurrency).getD 0)

/-- `entry.currency || currency`: the entry's own currency unless it is
absent or the empty string, in which case the display currency. -/
def resolveCurrency (entryCurrency : Option String) (displayCurrency : String) :
    String :=
  match entryCurrency with
  | none => displayCurrency
  | some c => if c = "" then displayCurrency else c

/-- The converted amount of one entry inside the `summary` reducers:
`convertCurrency(entry.amount, entry.currency || currency, currency)`. -/
def convertedAmount (exchangeRates : List (String × ℚ)) (currency : String)
    (e : Entry) : ℚ :=
  convertCurrency exchangeRates e.amount (resolveCurrency e.currency currency)
    currency

/-- Embedding of the `summary` memo (App.jsx lines 269–289): filter by
type, fold the converted amounts starting from 0, and take the
difference for the balance. -/
def summary (exchangeRates : List (String × ℚ)) (entries : List Entry)
    (currency : String) : Summary :=
  let totalIncome := (entries.filter (fun e => e.type == "income")).foldl
      (fun sum e => sum + convertedAmount exchangeRates currency e) 0
  let totalExpenses := (entries.filter (fun e => e.type == "expense")).foldl
      (fun sum e => sum + convertedAmount exchangeRates currency e) 0
  { totalIncome := totalIncome, totalExpenses := totalExpenses,
    balance := totalIncome - totalExpenses }

/-- Embedding of `handleDeleteEntry` (App.jsx lines 208–213).  The
`window.confirm` dialog is modelled by the `confirmed` flag: only a
confirmed delete filters the list. -/
def handleDeleteEntry (confirmed : Bool) (entries : List Entry) (id : Nat) :
    List Entry :=
  if confirmed then entries.filter (fun entry => entry.id != id) else entries

/-- JavaScript whitespace characters recognised by `String.prototype.trim`
and by the leading-whitespace skip of `parseFloat` (space, tab, line
feed, carriage return, vertical tab, form feed, no-break space). -/
def isJsWhitespace (c : Char) : Bool :=
  c = ' ' || c = '\t' || c = '\n' || c = '\r' ||
    c.toNat = 11 || c.toNat = 12 || c.toNat = 160

/-- Drop leading and trailing whitespace from a character list. -/
def trimChars (l : List Char) : List Char :=
  ((l.dropWhile isJsWhitespace).reverse.dropWhile isJsWhitespace).reverse

/-- Embedding of JavaScript `String.prototype.trim`, applied to
`formValues.label` in `handleSubmit`. -/
def jsTrim (s : String) : String :=
  ⟨trimChars s.data⟩

/-- Consume a maximal run of decimal digits, extending the accumulated
value `v`; returns the value, the number of digits consumed and the
remaining characters. -/
def parseDigits : List Char → Nat → Nat → Nat × Nat × List Char
  | [], v, n => (v, n, [])
  | c :: cs, v, n =>
    if c.isDigit then parseDigits cs (v * 10 + (c.toNat - 48)) (n + 1)
    else (v, n, c :: cs)

/-- Embedding of JavaScript `parseFloat` on the decimal grammar: skip
leading whitespace, optional sign, digits with an optional fractional
part and an optional exponent, ignoring any trailing garbage.  `none`
models the `NaN` result used by the `Number.isNaN` validation check.
(The non-finite literal `Infinity` has no rational counterpart and is
also mapped to `none`.) -/
def parseFloat (s : String) : Option ℚ :=
  let cs := s.data.dropWhile isJsWhitespace
  let signedTail :=
    match cs with
    | '-' :: rest => (true, rest)
    | '+' :: rest => (false, rest)
    | _ => (false, cs)
  let ipart := parseDigits signedTail.2 0 0
  let fpart :=
    match ipart.2.2 with
    | '.' :: rest => parseDigits rest 0 0
    | _ => (0, 0, ipart.2.2)
  if ipart.2.1 + fpart.2.1 = 0 then none
  else
    let exp : ℤ :=
      match fpart.2.2 with
      | c :: rest =>
        if c = 'e' ∨ c = 'E' then
          let expTail :=
            match rest with
            | '-' :: r => (true, r)
            | '+' :: r => (false, r)
            | _ => (false, rest)
          let epart := parseDigits expTail.2 0 0
          if epart.2.1 = 0 then 0
          else if expTail.1 then -(epart.1 : ℤ) else (epart.1 : ℤ)
        else 0
      | [] => 0
    let mantissa : ℚ := (ipart.1 : ℚ) + (fpart.1 : ℚ) / (10 : ℚ) ^ fpart.2.1
    some ((if signedTail.1 then -mantissa else mantissa) * (10 : ℚ) ^ exp)

/-- `resetForm` (App.jsx lines 137–145): blank form staged in the
display currency. -/
def resetForm (currency : String) : FormValues :=
  { type := "income", label := "", amount := "", category := "",
    entryCurrency := currency }

/-- The in-place field replacement performed on the matching entry by
the edit branch of `handleSubmit` (spread of `entry` with the five form
fields; `id` and `date` are kept). -/
def updatedEntry (formValues : FormValues) (amountNumber : ℚ) (entry : Entry) :
    Entry :=
  { entry with
    type := formValues.type,
    label := jsTrim formValues.label,
    amount := amountNumber,
    category := formValues.category,
    currency := some formValues.entryCurrency }

/-- The object literal appended by the create branch of `handleSubmit`. -/
def newEntry (formValues : FormValues) (amountNumber : ℚ) (newId : Nat)
    (newDate : String) : Entry :=
  { id := newId,
    type := formValues.type,
    label := jsTrim formValues.label,
    amount := amountNumber,
    category := formValues.category,
    currency := some formValues.entryCurrency,
    date := newDate }

/-- Embedding of `handleSubmit` (App.jsx lines 147–183): parse the
amount, validate, then either replace the entry matching `editingId`
(clearing edit mode) or append a fresh entry, resetting the form. -/
def handleSubmit (s : AppState) (newId : Nat) (newDate : String) : AppState :=
  match parseFloat s.formValues.amount with
  | none => s
  | some amountNumber =>
    if amountNumber < 0 then s
    else if jsTrim s.formValues.label = "" ∨ s.formValues.category = "" then s
    else
      match s.editingId with
      | some editingId =>
        { s with
          entries := s.entries.map (fun entry =>
            if entry.id = editingId then updatedEntry s.formValues amountNumber entry
            else entry),
          editingId := none,
          formValues := resetForm s.currency }
      | none =>
        { s with
          entries := s.entries ++ [newEntry s.formValues amountNumber newId newDate],
          formValues := resetForm s.currency }

/-- Embedding of `handleCancelEdit` (App.jsx lines 203–206): clear edit
mode and reset the staged form, leaving the entries untouched. -/
def handleCancelEdit (s : AppState) : AppState :=
  { s with editingId := none, formValues := resetForm s.currency }

/-- The data-model invariant of section 3 of the spec: amount ≥ 0,
label non-blank (nonempty after trimming), category non-empty. -/
def entryValid (e : Entry) : Prop :=
  0 ≤ e.amount ∧ jsTrim e.label ≠ "" ∧ e.category ≠ ""

instance entryValidDecidable : DecidablePred entryValid := fun e => by
  unfold entryValid
  infer_instance

/-- Sample income entry of the spec's worked example. -/
def entryA : Entry :=
  { id := 1, type := "income", label := "Salary", amount := 1000,
    category := "salary", currency := some "USD", date := "2024-01-01" }

/-- Sample expense entry of the spec's worked example. -/
def entryB : Entry :=
  { id := 2, type := "expense", label := "Groceries", amount := 200,
    category := "food", currency := some "EUR", date := "2024-01-02" }

/-- The entry list of the spec's worked example. -/
def exampleEntries : List Entry :=
  [entryA, entryB]

/-- The rate table of the spec's worked example: EUR = 0.9 per USD. -/
def exampleRates : List (String × ℚ) :=
  [("USD", 1), ("EUR", 9 / 10)]

/-- A concrete state in edit mode targeting `entryB`, with a valid
staged form. -/
def editState : AppState :=
  { entries := [entryA, entryB],
    editingId := some 2,
    formValues :=
      { type := "expense", label := " Rent ", amount := "50",
        category := "bills", entryCurrency := "EUR" },
    currency := "USD" }

/-- A concrete state whose staged amount does not parse as a number. -/
def invalidState : AppState :=
  { entries := [entryA],
    editingId := none,
    formValues :=
      { type := "income", label := "Pay", amount := "abc",
        category := "salary", entryCurrency := "USD" },
    currency := "USD" }

end BudgetTracker

namespace BudgetTracker

/-! ### Helper lemmas -/

theorem lookup_some_ne_nil {rates : List (String × ℚ)} {c : String} {r : ℚ}
    (h : lookupRate rates c = some r) : rates.length ≠ 0 := by
  intro hlen
  rw [List.length_eq_zero] at hlen
  subst hlen
  simp [lookupRate] at h

theorem convert_src_not_truthy (rates : List (String × ℚ)) (amount : ℚ)
    (src tgt : String) (hf : isTruthyRate (lookupRate rates src) = false)
    (hsrc : src ≠ "USD") : convertCurrency rates amount src tgt = amount := by
  unfold convertCurrency
  by_cases h1 : src = tgt
  · rw [if_pos h1]
  · rw [if_neg h1]
    by_cases h2 : rates.length = 0
    · rw [if_pos h2]
    · rw [if_neg h2, if_pos ⟨hf, hsrc⟩]

theorem foldl_add_map (f : Entry → ℚ) :
    ∀ (l : List Entry) (init : ℚ),
      l.foldl (fun sum e => sum + f e) init = init + (l.map f).sum
  | [], init => by simp
  | e :: l, init => by
    rw [List.foldl_cons, foldl_add_map f l (init + f e)]
    simp [add_assoc]

theorem all_of_dropWhile_nil (p : Char → Bool) :
    ∀ l : List Char, l.dropWhile p = [] → ∀ c ∈ l, p c = true
  | [], _, c, hc => absurd hc (List.not_mem_nil c)
  | a :: l, h, c, hc => by
    rw [List.dropWhile_cons] at h
    by_cases hpa : p a = true
    · rw [if_pos hpa] at h
      rcases List.mem_cons.mp hc with rfl | hc
      · exact hpa
      · exact all_of_dropWhile_nil p l h c hc
    · rw [if_neg hpa] at h
      exact absurd h (List.cons_ne_nil a l)

theorem exists_not_of_dropWhile_ne_nil (p : Char → Bool) :
    ∀ l : List Char, l.dropWhile p ≠ [] →
      ∃ c, c ∈ l.dropWhile p ∧ p c = false
  | [], h => absurd rfl h
  | a :: l, h => by
    rw [List.dropWhile_cons] at h ⊢
    by_cases hpa : p a = true
    · rw [if_pos hpa] at h ⊢
      exact exists_not_of_dropWhile_ne_nil p l h
    · rw [if_neg hpa] at h ⊢
      exact ⟨a, List.mem_cons_self a l, by simpa using hpa⟩

theorem all_ws_of_trimChars_nil {l : List Char} (h : trimChars l = []) :
    ∀ c ∈ l, isJsWhitespace c = true := by
  unfold trimChars at h
  rw [List.reverse_eq_nil_iff] at h
  have h1 : ∀ c ∈ (l.dropWhile isJsWhitespace).reverse, isJsWhitespace c = true :=
    all_of_dropWhile_nil _ _ h
  have h2 : l.dropWhile isJsWhitespace = [] := by
    by_contra hne
    obtain ⟨c, hc, hpc⟩ := exists_not_of_dropWhile_ne_nil _ _ hne
    have := h1 c (List.mem_reverse.mpr hc)
    rw [this] at hpc
    simp at hpc
  exact all_of_dropWhile_nil _ _ h2

theorem trimChars_ne_nil_of_ne_nil {l : List Char} (h : trimChars l ≠ []) :
    trimChars (trimChars l) ≠ [] := by
  intro habs
  have hall : ∀ c ∈ trimChars l, isJsWhitespace c = true :=
    all_ws_of_trimChars_nil habs
  unfold trimChars at h
  rw [ne_eq, List.reverse_eq_nil_iff] at h
  obtain ⟨c, hc, hpc⟩ := exists_not_of_dropWhile_ne_nil _ _ h
  have hcmem : c ∈ trimChars l := by
    unfold trimChars
    exact List.mem_reverse.mpr hc
  rw [hall c hcmem] at hpc
  simp at hpc

theorem jsTrim_ne_empty {s : String} (h : jsTrim s ≠ "") :
    jsTrim (jsTrim s) ≠ "" := by
  intro habs
  apply h
  unfold jsTrim at habs ⊢
  have h0 : trimChars (trimChars s.data) = [] := congrArg String.data habs
  have h2 : trimChars s.data = [] := by
    by_contra hne
    exact trimChars_ne_nil_of_ne_nil hne h0
  rw [h2]

/-! ### Claim theorems -/

/-- C1: for every amount and every currency code `c`,
`convertCurrency(amount, c, c)` returns exactly the input amount, for
every rate table, including an empty one or one missing `c`. -/
theorem convert_same_currency (exchangeRates : List (String × ℚ)) (amount : ℚ)
    (c : String) : convertCurrency exchangeRates amount c c = amount := by
  simp [convertCurrency]

/-- C2: for every amount and distinct currencies, if the rate table is
empty, or the source currency has no rate entry and is not USD, or the
target currency has no rate entry and is not USD, `convertCurrency`
returns the original amount unchanged. -/
theorem convert_missing_rate (rates : List (String × ℚ)) (amount : ℚ)
    (src tgt : String) (hne : src ≠ tgt)
    (h : rates = [] ∨
         (lookupRate rates src = none ∧ src ≠ "USD") ∨
         (lookupRate rates tgt = none ∧ tgt ≠ "USD")) :
    convertCurrency rates amount src tgt = amount := by
  rcases h with h | ⟨h1, h2⟩ | ⟨h1, h2⟩
  · simp [convertCurrency, h, hne]
  · exact convert_src_not_truthy rates amount src tgt (by rw [h1]; rfl) h2
  · rw [convertCurrency, if_neg hne]
    split
    · rfl
    · split
      · rfl
      · rw [if_pos ⟨by rw [h1]; rfl, h2⟩]

/-- C2 witness: converting 7 from EUR (absent from the table) to GBP
leaves the amount unchanged. -/
theorem convert_missing_rate_witness :
    convertCurrency [("GBP", (2 : ℚ))] 7 "EUR" "GBP" = 7 :=
  convert_missing_rate [("GBP", (2 : ℚ))] 7 "EUR" "GBP" (by decide)
    (Or.inr (Or.inl ⟨by decide, by decide⟩))

/-- C3 counterexample: with EUR present in the table but bound to the
rate 0 (and USD bound to 1), converting 200 EUR to USD does not return
`200 / rate[EUR]`: the falsy-rate guard returns the amount unchanged
instead of applying the pivot formula, so the claim as stated fails
for a present-but-zero rate. -/
theorem convert_pivot_counterexample :
    lookupRate [("EUR", (0 : ℚ)), ("USD", 1)] "EUR" = some 0 ∧
    lookupRate [("EUR", (0 : ℚ)), ("USD", 1)] "USD" = some 1 ∧
    convertCurrency [("EUR", (0 : ℚ)), ("USD", 1)] 200 "EUR" "USD" = 200 ∧
    convertCurrency [("EUR", (0 : ℚ)), ("USD", 1)] 200 "EUR" "USD" ≠ 200 / 0 := by
  refine ⟨by decide, by decide, ?_, ?_⟩ <;>
    simp +decide [convertCurrency, lookupRate, isTruthyRate]

/-- C3 (amended): for distinct source and target currencies whose rates
are present with nonzero values, `convertCurrency` returns
`(amount / rate[source]) * rate[target]`, the division being skipped
when the source is USD and the multiplication when the target is USD;
and on the spec's worked example (income 1000 USD, expense 200 EUR,
rate EUR = 0.9, display currency USD) the summary is
totalIncome = 1000, totalExpenses = 2000/9 (≈ 222.22) and
balance = 1000 − 2000/9 (≈ 777.78). -/
theorem convert_pivot_formula :
    (∀ (rates : List (String × ℚ)) (a : ℚ) (src tgt : String) (rs rt : ℚ),
      src ≠ tgt →
      lookupRate rates src = some rs → rs ≠ 0 →
      lookupRate rates tgt = some rt → rt ≠ 0 →
      convertCurrency rates a src tgt =
        if tgt = "USD" then (if src = "USD" then a else a / rs)
        else (if src = "USD" then a else a / rs) * rt) ∧
    (summary exampleRates exampleEntries "USD").totalIncome = 1000 ∧
    (summary exampleRates exampleEntries "USD").totalExpenses = 2000 / 9 ∧
    (summary exampleRates exampleEntries "USD").balance = 1000 - 2000 / 9 := by
  refine ⟨?_, ?_, ?_, ?_⟩
  · intro rates a src tgt rs rt hne hs hrs ht hrt
    have hlen := lookup_some_ne_nil hs
    rw [convertCurrency, if_neg hne, if_neg hlen]
    rw [if_neg (by rw [hs]; simp [isTruthyRate, hrs])]
    rw [if_neg (by rw [ht]; simp [isTruthyRate, hrt])]
    simp only [hs, ht, Option.getD_some]
  all_goals
    simp +decide [summary, exampleRates, exampleEntries, entryA, entryB,
      convertedAmount, convertCurrency, lookupRate, isTruthyRate,
      resolveCurrency] <;>
    norm_num

/-- C3 witness: the amended pivot formula applied at rates
USD = 1, EUR = 2 converts 10 EUR to 10/2 USD. -/
theorem convert_pivot_formula_witness :
    convertCurrency [("USD", (1 : ℚ)), ("EUR", 2)] 10 "EUR" "USD" = 10 / 2 := by
  have h := convert_pivot_formula.1 [("USD", (1 : ℚ)), ("EUR", 2)] 10 "EUR" "USD"
    2 1 (by decide) (by decide) (by norm_num) (by decide) (by norm_num)
  simpa using h

/-- C4: converting an amount from a currency `c` whose rate is present
(along with the base currency USD) to USD and back to `c` reproduces the
amount exactly — exact arithmetic here means rationals, the model of the
claim's "exactly in exact arithmetic" reading. -/
theorem convert_round_trip (rates : List (String × ℚ)) (a : ℚ) (c : String)
    (rc ru : ℚ) (hc : lookupRate rates c = some rc)
    (hu : lookupRate rates "USD" = some ru) :
    convertCurrency rates (convertCurrency rates a c "USD") "USD" c = a := by
  by_cases hcu : c = "USD"
  · subst hcu
    simp [convertCurrency]
  · by_cases hrc : rc = 0
    · subst hrc
      rw [convert_src_not_truthy rates a c "USD" (by rw [hc]; rfl) hcu]
      rw [convertCurrency, if_neg (Ne.symm hcu), if_neg (lookup_some_ne_nil hc)]
      rw [if_neg (by simp), if_pos ⟨by rw [hc]; rfl, hcu⟩]
    · have hlen := lookup_some_ne_nil hc
      simp only [convertCurrency, hc, isTruthyRate, Option.getD_some,
        if_neg hcu, if_neg (Ne.symm hcu), if_neg hlen, bne_iff_ne, ne_eq,
        hrc, not_false_eq_true, decide_not]
      simp [hcu, hrc]

/-- C4 witness: with rates USD = 1 and EUR = 2, the round trip
EUR → USD → EUR reproduces 123. -/
theorem convert_round_trip_witness :
    convertCurrency [("USD", (1 : ℚ)), ("EUR", 2)]
      (convertCurrency [("USD", (1 : ℚ)), ("EUR", 2)] 123 "EUR" "USD")
      "USD" "EUR" = 123 :=
  convert_round_trip [("USD", (1 : ℚ)), ("EUR", 2)] 123 "EUR" 2 1
    (by decide) (by decide)

/-- C5: for every entry list, display currency and rate table, the
summary satisfies balance = totalIncome − totalExpenses, where
totalIncome (resp. totalExpenses) is the sum of the converted amounts of
the entries of type income (resp. expense). -/
theorem summary_balance (exchangeRates : List (String × ℚ))
    (entries : List Entry) (currency : String) :
    (summary exchangeRates entries currency).balance =
      (summary exchangeRates entries currency).totalIncome -
        (summary exchangeRates entries currency).totalExpenses ∧
    (summary exchangeRates entries currency).totalIncome =
      ((entries.filter (fun e => e.type == "income")).map
        (convertedAmount exchangeRates currency)).sum ∧
    (summary exchangeRates entries currency).totalExpenses =
      ((entries.filter (fun e => e.type == "expense")).map
        (convertedAmount exchangeRates currency)).sum := by
  refine ⟨rfl, ?_, ?_⟩ <;> simp [summary, foldl_add_map]

/-- C6: a confirmed delete removes exactly the entries whose id equals
the given id and keeps all other entries in their original order
(`handleDeleteEntry true entries id` is the order-preserving sublist of
the entries with a different id); deleting an id that matches no entry
leaves the list unchanged, and an unconfirmed delete never changes it. -/
theorem delete_exact (entries : List Entry) (id : Nat) :
    handleDeleteEntry true entries id =
      entries.filter (fun entry => entry.id != id) ∧
    (handleDeleteEntry true entries id).Sublist entries ∧
    (∀ e, e ∈ handleDeleteEntry true entries id ↔ e ∈ entries ∧ e.id ≠ id) ∧
    ((∀ e ∈ entries, e.id ≠ id) → handleDeleteEntry true entries id = entries) ∧
    handleDeleteEntry false entries id = entries := by
  refine ⟨rfl, ?_, ?_, ?_, rfl⟩
  · simpa [handleDeleteEntry] using List.filter_sublist entries
  · intro e
    simp [handleDeleteEntry, List.mem_filter]
  · intro h
    simp only [handleDeleteEntry, if_pos rfl]
    exact List.filter_eq_self.mpr (fun e he => by simpa using h e he)

/-- C6 witness: deleting the id 99, which matches no entry, leaves the
one-entry list unchanged. -/
theorem delete_exact_witness :
    handleDeleteEntry true [entryA] 99 = [entryA] :=
  (delete_exact [entryA] 99).2.2.2.1 (by decide)

/-- C7: when the entry list contains an entry with id `editingId`,
submitting a valid form in edit mode keeps the list length and order,
replaces the type, trimmed label, amount, category and currency fields
of exactly the entries whose id matches `editingId` (keeping id and
date), leaves every other entry unchanged, and clears edit mode. -/
theorem submit_edit_updates_match (s : AppState) (newId : Nat)
    (newDate : String) (eid : Nat) (a : ℚ)
    (hedit : s.editingId = some eid)
    (hmem : ∃ e ∈ s.entries, e.id = eid)
    (hamount : parseFloat s.formValues.amount = some a)
    (hnonneg : ¬a < 0)
    (hlabel : jsTrim s.formValues.label ≠ "")
    (hcat : s.formValues.category ≠ "") :
    (handleSubmit s newId newDate).entries.length = s.entries.length ∧
    (∀ i (h1 : i < s.entries.length)
        (h2 : i < (handleSubmit s newId newDate).entries.length),
      (handleSubmit s newId newDate).entries.get ⟨i, h2⟩ =
        if (s.entries.get ⟨i, h1⟩).id = eid
        then updatedEntry s.formValues a (s.entries.get ⟨i, h1⟩)
        else s.entries.get ⟨i, h1⟩) ∧
    (handleSubmit s newId newDate).editingId = none := by
  have hres : handleSubmit s newId newDate =
      { s with
        entries := s.entries.map (fun entry =>
          if entry.id = eid then updatedEntry s.formValues a entry else entry),
        editingId := none,
        formValues := resetForm s.currency } := by
    unfold handleSubmit
    rw [hamount]
    simp only [if_neg hnonneg, if_neg (not_or.mpr ⟨hlabel, hcat⟩), hedit]
  refine ⟨?_, ?_, ?_⟩
  · rw [hres]; simp
  · intro i h1 h2
    revert h2
    rw [hres]
    intro h2
    simp [List.getElem_map]
  · rw [hres]

/-- C7 witness: in `editState` (editing the entry with id 2 with a valid
staged form) submission keeps both entries and clears edit mode. -/
theorem submit_edit_updates_match_witness :
    (handleSubmit editState 7 "2024-02-02").entries.length =
      editState.entries.length ∧
    (handleSubmit editState 7 "2024-02-02").editingId = none := by
  have h := submit_edit_updates_match editState 7 "2024-02-02" 2 50 rfl
    (by decide) (by simp +decide [parseFloat, parseDigits, editState])
    (by norm_num) (by decide) (by decide)
  exact ⟨h.1, h.2.2⟩

/-- C8: when the staged amount does not parse as a number, or parses as
a negative number, or the label is blank after trimming, or the category
is empty, submission is a no-op — the whole state (entry list, edit
target, staged form) is returned unchanged. -/
theorem submit_invalid_noop (s : AppState) (newId : Nat) (newDate : String)
    (h : parseFloat s.formValues.amount = none ∨
         (∃ a, parseFloat s.formValues.amount = some a ∧ a < 0) ∨
         jsTrim s.formValues.label = "" ∨
         s.formValues.category = "") :
    handleSubmit s newId newDate = s := by
  unfold handleSubmit
  rcases h with h | ⟨a, ha, hneg⟩ | h | h
  · rw [h]
  · rw [ha]
    simp [if_pos hneg]
  · cases hp : parseFloat s.formValues.amount with
    | none => rfl
    | some a =>
      simp only
      split
      · rfl
      · rw [if_pos (Or.inl h)]
  · cases hp : parseFloat s.formValues.amount with
    | none => rfl
    | some a =>
      simp only
      split
      · rfl
      · rw [if_pos (Or.inr h)]

/-- C8 witness: submitting `invalidState`, whose staged amount "abc"
does not parse, changes nothing. -/
theorem submit_invalid_noop_witness :
    handleSubmit invalidState 9 "2024-03-03" = invalidState :=
  submit_invalid_noop invalidState 9 "2024-03-03"
    (Or.inl (by simp +decide [parseFloat, parseDigits, invalidState]))

/-- C9: if every entry of the state satisfies the data-model invariant
(amount ≥ 0, label non-blank after trimming, category non-empty), then
every entry still satisfies it after a submission (create, edit or
rejected), after a delete (confirmed or not), and cancel-edit leaves the
entry list unchanged; in particular every entry produced by a successful
create or edit satisfies the invariant. -/
theorem invariant_preserved (s : AppState) (newId : Nat) (newDate : String)
    (confirmed : Bool) (id : Nat)
    (hvalid : ∀ e ∈ s.entries, entryValid e) :
    (∀ e ∈ (handleSubmit s newId newDate).entries, entryValid e) ∧
    (∀ e ∈ handleDeleteEntry confirmed s.entries id, entryValid e) ∧
    (handleCancelEdit s).entries = s.entries := by
  refine ⟨?_, ?_, rfl⟩
  · intro e he
    unfold handleSubmit at he
    cases hp : parseFloat s.formValues.amount with
    | none => rw [hp] at he; exact hvalid e he
    | some a =>
      rw [hp] at he
      simp only at he
      by_cases hneg : a < 0
      · rw [if_pos hneg] at he; exact hvalid e he
      · rw [if_neg hneg] at he
        by_cases hval : jsTrim s.formValues.label = "" ∨ s.formValues.category = ""
        · rw [if_pos hval] at he; exact hvalid e he
        · rw [if_neg hval] at he
          rw [not_or] at hval
          cases heid : s.editingId with
          | some eid =>
            rw [heid] at he
            simp only [List.mem_map] at he
            obtain ⟨x, hx, hfx⟩ := he
            by_cases hxid : x.id = eid
            · rw [if_pos hxid] at hfx
              rw [← hfx]
              exact ⟨not_lt.mp hneg, jsTrim_ne_empty hval.1, hval.2⟩
            · rw [if_neg hxid] at hfx
              rw [← hfx]
              exact hvalid x hx
          | none =>
            rw [heid] at he
            simp only [List.mem_append, List.mem_singleton] at he
            rcases he with he | rfl
            · exact hvalid e he
            · exact ⟨not_lt.mp hneg, jsTrim_ne_empty hval.1, hval.2⟩
  · intro e he
    unfold handleDeleteEntry at he
    cases confirmed with
    | true =>
      rw [if_pos rfl] at he
      exact hvalid e (List.mem_of_mem_filter he)
    | false =>
      simp only [Bool.false_eq_true, if_neg] at he
      exact hvalid e he

/-- C9 witness: in `editState` all entries satisfy the invariant, and
cancel-edit leaves the entry list unchanged. -/
theorem invariant_preserved_witness :
    (handleCancelEdit editState).entries = editState.entries :=
  (invariant_preserved editState 7 "2024-02-02" true 1 (by decide)).2.2

/-- C10: a currency whose rate table value is 0 is treated by the falsy
guard exactly like a missing currency — for every amount, target and
rate table binding the source to 0 (source not USD), `convertCurrency`
returns the original amount without reaching the division. -/
theorem convert_zero_rate (rates : List (String × ℚ)) (amount : ℚ)
    (src tgt : String) (h0 : lookupRate rates src = some 0)
    (hsrc : src ≠ "USD") :
    convertCurrency rates amount src tgt = amount :=
  convert_src_not_truthy rates amount src tgt (by rw [h0]; rfl) hsrc

/-- C10 witness: converting 42 from EUR (rate 0) to GBP returns 42. -/
theorem convert_zero_rate_witness :
    convertCurrency [("EUR", (0 : ℚ)), ("USD", 1)] 42 "EUR" "GBP" = 42 :=
  convert_zero_rate [("EUR", (0 : ℚ)), ("USD", 1)] 42 "EUR" "GBP"
    (by decide) (by decide)

end BudgetTracker
